import Mathlib

/-!
Verification development for the pdf viewer repository.

The rectangle-consolidation geometry engine, the canvas sizing and scale
clamping of the tiled raster pipeline, the render-cancellation protocol,
the selection-extraction entry point and the annotation store are embedded
shallowly below.  JS numbers are modelled by exact arithmetic: rationals
where the source uses only field operations and floor, reals where the
source uses a square root.  JS booleans become Bool, JS undefined becomes
Option, and the JS falsiness of the empty string is modelled explicitly.
-/

/-! ## Data model (src/packages/lector/src/hooks/useAnnotations.ts) -/

/-- HighlightRect from useAnnotations.ts: page-local rectangle plus page number. -/
structure HighlightRect where
  height : ℚ
  left : ℚ
  top : ℚ
  width : ℚ
  pageNumber : ℤ
deriving DecidableEq, Repr

/-- MERGE_THRESHOLD constant of the consolidation module. -/
def MERGE_THRESHOLD : ℚ := 2

/-! ## Rect consolidation engine (src/unnamed/part_003) -/

/-- shouldMergeRects: vertical overlap together with horizontal adjacency
within MERGE_THRESHOLD or actual horizontal overlap. -/
def shouldMergeRects (rect1 rect2 : HighlightRect) : Bool :=
  decide ((¬ (rect1.top > rect2.top + rect2.height ∨ rect2.top > rect1.top + rect1.height)) ∧
    (|rect1.left + rect1.width - rect2.left| ≤ MERGE_THRESHOLD ∨
     |rect2.left + rect2.width - rect1.left| ≤ MERGE_THRESHOLD ∨
     (rect1.left < rect2.left + rect2.width ∧ rect2.left < rect1.left + rect1.width)))

/-- doRectsOverlap: strict two-axis overlap, or closeness in the sense of
shouldMergeRects.  Note that no pageNumber comparison appears here. -/
def doRectsOverlap (rect1 rect2 : HighlightRect) : Bool :=
  decide (((rect1.left < rect2.left + rect2.width ∧ rect2.left < rect1.left + rect1.width) ∧
           (rect1.top < rect2.top + rect2.height ∧ rect2.top < rect1.top + rect1.height)) ∨
          shouldMergeRects rect1 rect2 = true)

/-- Sort comparator of consolidateHighlightRects: by page, then by top with a
tolerance of 2 under which the tie is broken by left. -/
def hlCompare (a b : HighlightRect) : ℚ :=
  let pageCompare : ℚ := ((a.pageNumber - b.pageNumber : ℤ) : ℚ)
  if pageCompare ≠ 0 then pageCompare
  else
    let topDiff := a.top - b.top
    if |topDiff| < 2 then a.left - b.left else topDiff

/-- Boolean order used to model the stable JS sort of consolidateHighlightRects. -/
def hlSortLE (a b : HighlightRect) : Bool :=
  decide (hlCompare a b ≤ 0)

/-- Merge guard of the consolidateHighlightRects loop: same page, same line
with half-height tolerance, and horizontally adjacent, overlapping or very
close (gap at most a fifth of the height of the current rect). -/
def hlConnected (current next : HighlightRect) : Bool :=
  decide ((current.pageNumber = next.pageNumber ∧
           |current.top - next.top| < max current.height next.height * 0.5) ∧
    (|current.left + current.width - next.left| ≤ MERGE_THRESHOLD ∨
     |next.left + next.width - current.left| ≤ MERGE_THRESHOLD ∨
     (current.left < next.left + next.width ∧ next.left < current.left + current.width) ∨
     |current.left + current.width - next.left| ≤ current.height * 0.2))

/-- Merge step of consolidateHighlightRects: bounding box of the two rects,
page taken from the current rect. -/
def hlMergeRects (current next : HighlightRect) : HighlightRect :=
  let newLeft := min current.left next.left
  let newRight := max (current.left + current.width) (next.left + next.width)
  let newTop := min current.top next.top
  let newBottom := max (current.top + current.height) (next.top + next.height)
  { left := newLeft, top := newTop, width := newRight - newLeft,
    height := newBottom - newTop, pageNumber := current.pageNumber }

/-- Single pass of consolidateHighlightRects over the sorted tail: merge the
running rect with the next one when connected, otherwise emit it. -/
def hlLoop (current : HighlightRect) : List HighlightRect → List HighlightRect
  | [] => [current]
  | next :: rest =>
      if hlConnected current next then hlLoop (hlMergeRects current next) rest
      else current :: hlLoop next rest

/-- consolidateHighlightRects: sort by page, then top (with tolerance), then
left, and run the single merging pass.  Lists of at most one rect are
returned unchanged, as in the source. -/
def consolidateHighlightRects (rects : List HighlightRect) : List HighlightRect :=
  if rects.length ≤ 1 then rects
  else
    match rects.mergeSort hlSortLE with
    | [] => rects
    | current :: rest => hlLoop current rest

/-- One inner j-sweep of the consolidateRects closure loop: each unvisited
rect that overlaps some member of the growing group (including members
absorbed earlier in the same sweep) is appended to the group; the others are
kept, in order, for the next sweep. -/
def sweepOnce (group : List HighlightRect) : List HighlightRect → List HighlightRect × List HighlightRect
  | [] => (group, [])
  | candidateRect :: rest =>
      if group.any (fun groupRect => doRectsOverlap groupRect candidateRect) then
        sweepOnce (group ++ [candidateRect]) rest
      else
        let res := sweepOnce group rest
        (res.1, candidateRect :: res.2)

/-- The while-foundNew loop of consolidateRects: sweeps repeat until a sweep
absorbs nothing.  Each productive sweep strictly shrinks the unvisited list,
so a fuel of one more than the list length is always sufficient; the fuel
case 0 is unreachable from closeGroup. -/
def closeGroupFuel : ℕ → List HighlightRect → List HighlightRect → List HighlightRect × List HighlightRect
  | 0, group, rest => (group, rest)
  | fuel + 1, group, rest =>
      let res := sweepOnce group rest
      if res.2.length = rest.length then res
      else closeGroupFuel fuel res.1 res.2

/-- Iterated closure of a group against the unvisited rects, with sufficient
fuel. -/
def closeGroup (group rest : List HighlightRect) : List HighlightRect × List HighlightRect :=
  closeGroupFuel (rest.length + 1) group rest

/-- mergeRectGroup: a single rect is returned as is; otherwise the group
collapses to its bounding box with the page of the first member.  The empty
group, on which the source throws, is modelled by none. -/
def mergeRectGroup : List HighlightRect → Option HighlightRect
  | [] => none
  | [rect] => some rect
  | firstRect :: rest =>
      let res := (firstRect :: rest).foldl
        (fun (acc : ℚ × ℚ × ℚ × ℚ) rect =>
          (min acc.1 rect.left, min acc.2.1 rect.top,
           max acc.2.2.1 (rect.left + rect.width), max acc.2.2.2 (rect.top + rect.height)))
        (firstRect.left, firstRect.top, firstRect.left + firstRect.width,
         firstRect.top + firstRect.height)
      some { left := res.1, top := res.2.1, width := res.2.2.1 - res.1,
             height := res.2.2.2 - res.2.1, pageNumber := firstRect.pageNumber }

/-- Outer loop of consolidateRects: take the first unvisited rect, close its
group, emit the merged group and continue with the rects left unvisited.
The unvisited list shrinks at each step, so a fuel equal to the initial
length is sufficient and the 0 case is unreachable; the none branch of
mergeRectGroup is likewise unreachable since groups are built nonempty. -/
def consolidateRectsGo : ℕ → List HighlightRect → List HighlightRect
  | 0, _ => []
  | _, [] => []
  | fuel + 1, currentRect :: rest =>
      let res := closeGroup [currentRect] rest
      match mergeRectGroup res.1 with
      | some merged => merged :: consolidateRectsGo fuel res.2
      | none => consolidateRectsGo fuel res.2

/-- consolidateRects: connected-component merge by iterative closure over
doRectsOverlap.  Lists of at most one rect are returned unchanged. -/
def consolidateRects (rects : List HighlightRect) : List HighlightRect :=
  if rects.length ≤ 1 then rects
  else consolidateRectsGo rects.length rects

/-- Geometric containment of rectangles, the sense in which a merged
bounding box contains its members. -/
def containsRect (outer inner : HighlightRect) : Prop :=
  outer.left ≤ inner.left ∧ outer.top ≤ inner.top ∧
  inner.left + inner.width ≤ outer.left + outer.width ∧
  inner.top + inner.height ≤ outer.top + outer.height

instance (outer inner : HighlightRect) : Decidable (containsRect outer inner) := by
  unfold containsRect
  infer_instance

/-! ## Underline pipeline of useSelectionDimensions (src/unnamed/part_003) -/

/-- Line grouping insertion step of groupRectsByLine: a rect joins the first
group whose first member has a vertical center within the 3-unit tolerance,
otherwise it starts a new group. -/
def addToLineGroups (centerY : ℚ) (rect : HighlightRect) : List (List HighlightRect) → List (List HighlightRect)
  | [] => [[rect]]
  | g :: gs =>
      match g with
      | [] => g :: addToLineGroups centerY rect gs
      | firstRect :: _ =>
          if |centerY - (firstRect.top + firstRect.height / 2)| ≤ 3 then (g ++ [rect]) :: gs
          else g :: addToLineGroups centerY rect gs

/-- groupRectsByLine: cluster rects into lines by vertical-center proximity. -/
def groupRectsByLine (rects : List HighlightRect) : List (List HighlightRect) :=
  rects.foldl (fun groups rect => addToLineGroups (rect.top + rect.height / 2) rect groups) []

/-- Left-to-right order used for the in-group sort of the underline walk. -/
def leftSortLE (a b : HighlightRect) : Bool :=
  decide (a.left - b.left ≤ 0)

/-- Extension of an underline run: consecutive rects are absorbed while the
gap to the next rect is at most max(MERGE_THRESHOLD, 0.3 times the height of
the current end rect); returns the end rect of the run and the remainder. -/
def splitRun (last : HighlightRect) : List HighlightRect → HighlightRect × List HighlightRect
  | [] => (last, [])
  | nextRect :: rest =>
      let gap := nextRect.left - (last.left + last.width)
      let maxGapAllowed := max MERGE_THRESHOLD (last.height * 0.3)
      if gap ≤ maxGapAllowed then splitRun nextRect rest
      else (last, nextRect :: rest)

/-- The while walk over one sorted line group: each maximal adjacent run
becomes a single underline rect of thickness 1.5 spanning the run.  Each
step consumes at least the start rect, so a fuel equal to the group length
is sufficient and the 0 case is unreachable. -/
def underlineRunsFuel : ℕ → List HighlightRect → List HighlightRect
  | 0, _ => []
  | _, [] => []
  | fuel + 1, startRect :: rest =>
      let res := splitRun startRect rest
      { width := res.1.left + res.1.width - startRect.left, height := 1.5,
        top := startRect.top, left := startRect.left,
        pageNumber := startRect.pageNumber } :: underlineRunsFuel fuel res.2

/-- Underline runs of one line group. -/
def underlineRuns (group : List HighlightRect) : List HighlightRect :=
  underlineRunsFuel group.length group

/-- Sort comparator of consolidateUnderlines: by page, then by top with a
tolerance of 1 under which the tie is broken by left. -/
def ulCompare (a b : HighlightRect) : ℚ :=
  let pageCompare : ℚ := ((a.pageNumber - b.pageNumber : ℤ) : ℚ)
  if pageCompare ≠ 0 then pageCompare
  else
    let topCompare := a.top - b.top
    if |topCompare| < 1 then a.left - b.left else topCompare

/-- Boolean order used to model the stable JS sort of consolidateUnderlines. -/
def ulSortLE (a b : HighlightRect) : Bool :=
  decide (ulCompare a b ≤ 0)

/-- Merge guard of consolidateUnderlines: same page, tops within 1, and
horizontally adjacent within MERGE_THRESHOLD or overlapping. -/
def ulConnected (current next : HighlightRect) : Bool :=
  decide ((current.pageNumber = next.pageNumber ∧ |current.top - next.top| < 1) ∧
    (|current.left + current.width - next.left| ≤ MERGE_THRESHOLD ∨
     (current.left < next.left + next.width ∧ next.left < current.left + current.width)))

/-- Merge step of consolidateUnderlines: horizontal extent is widened, the
other fields come from the current rect. -/
def ulMergeRects (current next : HighlightRect) : HighlightRect :=
  let newWidth := max (current.left + current.width) (next.left + next.width) -
    min current.left next.left
  { current with left := min current.left next.left, width := newWidth }

/-- Single pass of consolidateUnderlines over the sorted tail. -/
def ulLoop (current : HighlightRect) : List HighlightRect → List HighlightRect
  | [] => [current]
  | next :: rest =>
      if ulConnected current next then ulLoop (ulMergeRects current next) rest
      else current :: ulLoop next rest

/-- consolidateUnderlines: sort and run the single merging pass; lists of at
most one rect are returned unchanged. -/
def consolidateUnderlines (underlines : List HighlightRect) : List HighlightRect :=
  if underlines.length ≤ 1 then underlines
  else
    match underlines.mergeSort ulSortLE with
    | [] => underlines
    | current :: rest => ulLoop current rest

/-! ## Selection extraction (getAnnotationDimension, src/unnamed/part_003)

The DOM is abstracted: a client rect of the live range either resolves,
through the elementFromPoint probes and the closest textLayer lookup, to a
page text layer (page number, layer origin, super/subscript classification
of the hit element), or it does not resolve at all. -/

/-- Client-space rectangle of the selection range. -/
structure ClientRect where
  left : ℚ
  top : ℚ
  width : ℚ
  height : ℚ
deriving DecidableEq, Repr

/-- Outcome of resolving a client rect against a page text layer. -/
structure TextLayerInfo where
  pageNumber : ℤ
  layerLeft : ℚ
  layerTop : ℚ
  isSuperOrSubScript : Bool
deriving DecidableEq, Repr

/-- One client rect of the range together with its resolution outcome. -/
structure SelectionFragment where
  rect : ClientRect
  resolvedLayer : Option TextLayerInfo
deriving DecidableEq, Repr

/-- The live selection as seen by getAnnotationDimension. -/
structure DomSelection where
  isCollapsed : Bool
  fragments : List SelectionFragment
  rangeText : String
deriving DecidableEq, Repr

/-- Return shape of getAnnotationDimension. -/
structure CollapsibleSelection where
  highlights : List HighlightRect
  underlines : List HighlightRect
  text : String
  isCollapsed : Bool
deriving DecidableEq, Repr

/-- Insertion-ordered page map used for the per-page grouping (JS Map
preserves insertion order; values are appended). -/
def mapInsert (m : List (ℤ × List HighlightRect)) (page : ℤ) (r : HighlightRect) : List (ℤ × List HighlightRect) :=
  match m with
  | [] => [(page, [r])]
  | (p, rs) :: rest =>
      if p = page then (p, rs ++ [r]) :: rest
      else (p, rs) :: mapInsert rest page r

/-- The forEach over the filtered client rects: build the per-page highlight
map and, for fragments not classified super/subscript, the per-page
underline map (baseline offset 0.85 of the height, thickness 2, all divided
by zoom). -/
def collectRects (zoom : ℚ) (fragments : List SelectionFragment) : List (ℤ × List HighlightRect) × List (ℤ × List HighlightRect) :=
  fragments.foldl
    (fun maps frag =>
      match frag.resolvedLayer with
      | none => maps
      | some layer =>
          let clientRect := frag.rect
          let highlightRect : HighlightRect :=
            { width := clientRect.width / zoom, height := clientRect.height / zoom,
              top := (clientRect.top - layer.layerTop) / zoom,
              left := (clientRect.left - layer.layerLeft) / zoom,
              pageNumber := layer.pageNumber }
          let mapsH := mapInsert maps.1 layer.pageNumber highlightRect
          let mapsU :=
            if layer.isSuperOrSubScript then maps.2
            else
              let baselineOffset := clientRect.height * 0.85
              let underlineRect : HighlightRect :=
                { width := clientRect.width / zoom, height := 2 / zoom,
                  top := (clientRect.top - layer.layerTop + baselineOffset) / zoom,
                  left := (clientRect.left - layer.layerLeft) / zoom,
                  pageNumber := layer.pageNumber }
              mapInsert maps.2 layer.pageNumber underlineRect
          (mapsH, mapsU))
    ([], [])

/-- Order by page number used for the final sorts of the extraction result. -/
def pageSortLE (a b : HighlightRect) : Bool :=
  decide (((a.pageNumber - b.pageNumber : ℤ) : ℚ) ≤ 0)

/-- Fallback underline synthesized from a highlight rect: baseline at 0.85
of the height, thickness 1.5. -/
def fallbackUnderline (highlightRect : HighlightRect) : HighlightRect :=
  { width := highlightRect.width, height := 1.5,
    top := highlightRect.top + highlightRect.height * 0.85,
    left := highlightRect.left, pageNumber := highlightRect.pageNumber }

/-- getAnnotationDimension over the abstracted DOM: collapsed or absent
selections yield none; otherwise rects wider and taller than 2 are grouped
by page, highlights are consolidated per page (single rects pass through),
underlines are built per page by line grouping and run walking, with the
highlight-derived fallback when no underline was produced, and both lists
are sorted by page. -/
def getAnnotationDimension (zoom : ℚ) (sel : Option DomSelection) : Option CollapsibleSelection :=
  match sel with
  | none => none
  | some selection =>
      if selection.isCollapsed then none
      else
        let clientRects := selection.fragments.filter
          (fun frag => decide (frag.rect.width > 2 ∧ frag.rect.height > 2))
        let maps := collectRects zoom clientRects
        let highlightRects := maps.1.foldl
          (fun acc pr =>
            if pr.2.length = 0 then acc
            else if pr.2.length = 1 then acc ++ pr.2
            else acc ++ consolidateHighlightRects pr.2) []
        let underlineRects := maps.2.foldl
          (fun acc pr =>
            if pr.2.length = 0 then acc
            else acc ++ (groupRectsByLine pr.2).foldl
              (fun acc2 group =>
                if group.length = 0 then acc2
                else acc2 ++ underlineRuns (group.mergeSort leftSortLE)) []) []
        let underlineRectsWithFallback :=
          if underlineRects.length = 0 ∧ highlightRects.length > 0 then
            highlightRects.map fallbackUnderline
          else underlineRects
        some { highlights := highlightRects.mergeSort pageSortLE,
               underlines := (consolidateUnderlines underlineRectsWithFallback).mergeSort pageSortLE,
               text := selection.rangeText.trim,
               isCollapsed := false }

/-! ## Tiled raster pipeline (useCanvasLayer in
src/packages/lector/src/components/annotation-tooltip.tsx and
clampScaleForPage in src/packages/lector/src/hooks/layers/useDetailCanvasLayer.tsx) -/

/-- MAX_CANVAS_PIXELS constant of useDetailCanvasLayer. -/
def MAX_CANVAS_PIXELS : ℕ := 16777216

/-- MAX_CANVAS_DIMENSION constant of useDetailCanvasLayer. -/
def MAX_CANVAS_DIMENSION : ℕ := 32767

/-- Pixel width assigned to the base canvas by useCanvasLayer: the floor of
pageWidth times targetScale, where targetScale is dpr times zoom with no
clamping applied. -/
def baseCanvasWidth (pageWidth dpr zoom : ℚ) : ℤ :=
  ⌊pageWidth * (dpr * zoom)⌋

/-- Pixel height assigned to the base canvas by useCanvasLayer. -/
def baseCanvasHeight (pageHeight dpr zoom : ℚ) : ℤ :=
  ⌊pageHeight * (dpr * zoom)⌋

/-- clampScaleForPage from useDetailCanvasLayer: the requested scale is
capped by the square root of the area budget and by the two dimension
budgets, then floored at 0.  A zero requested scale returns 0.  Over the
reals every intermediate value is finite, so the Number.isFinite fallbacks
of the source always pick the computed limits. -/
noncomputable def clampScaleForPage (targetScale pageWidth pageHeight : ℝ) : ℝ :=
  if targetScale = 0 then 0
  else
    let areaLimit := Real.sqrt ((MAX_CANVAS_PIXELS : ℝ) / max (pageWidth * pageHeight) 1)
    let widthLimit := (MAX_CANVAS_DIMENSION : ℝ) / max pageWidth 1
    let heightLimit := (MAX_CANVAS_DIMENSION : ℝ) / max pageHeight 1
    let safeScale := min (min (min targetScale areaLimit) widthLimit) heightLimit
    max safeScale 0

/-! ## Render cancellation protocol (useCanvasLayer and useDetailCanvasLayer)

Each layout effect issues one render task against the page proxy and its
cleanup cancels that task; the host runs the cleanup of the previous effect
before the body of the next one, so issuing a render first cancels the
pending one.  A cancelled task settles with the distinguished
RenderingCancelledException and never draws to the surface; the catch
handler of the source swallows exactly that error and rethrows any other.
The protocol is modelled as a step machine over the history of one surface. -/

/-- State of one page surface: the pending render operation, the cancelled
and committed operation ids, and the id for the next operation. -/
structure SurfaceState where
  pending : Option ℕ
  cancelled : List ℕ
  committed : List ℕ
  nextId : ℕ
deriving DecidableEq, Repr

/-- Surface with no render history. -/
def initialSurface : SurfaceState :=
  { pending := none, cancelled := [], committed := [], nextId := 0 }

/-- Issuing a render: the cleanup of the superseded effect cancels the
pending task, then a fresh task becomes pending. -/
def issueRender (s : SurfaceState) : SurfaceState :=
  { pending := some s.nextId, cancelled := s.cancelled ++ s.pending.toList,
    committed := s.committed, nextId := s.nextId + 1 }

/-- Settlement of task i: only the still-pending, non-cancelled task commits
its output to the surface; any other settlement (in particular of a
cancelled task) changes nothing. -/
def settleRender (s : SurfaceState) (i : ℕ) : SurfaceState :=
  if s.pending = some i ∧ i ∉ s.cancelled then
    { s with pending := none, committed := s.committed ++ [i] }
  else s

/-- Events observable on one surface. -/
inductive SurfaceEvent where
  | issue : SurfaceEvent
  | settle : ℕ → SurfaceEvent
deriving DecidableEq, Repr

/-- One protocol step. -/
def stepSurface (s : SurfaceState) : SurfaceEvent → SurfaceState
  | SurfaceEvent.issue => issueRender s
  | SurfaceEvent.settle i => settleRender s i

/-- Surface state after a history of events. -/
def runSurface (events : List SurfaceEvent) : SurfaceState :=
  events.foldl stepSurface initialSurface

/-- The catch handler of the render promise: the cancelled-operation signal
is swallowed, every other failure propagates. -/
def handleRenderError (errorName : String) : Except String Unit :=
  if errorName = "RenderingCancelledException" then Except.ok ()
  else Except.error errorName

/-! ## Annotation store (src/packages/lector/src/hooks/useAnnotations.ts)

The Lean names carry a Record suffix; they embed the Annotation interface
and the addAnnotation, updateAnnotation and deleteAnnotation store actions
of the source. -/

/-- Annotation record; optional fields are Options, timestamps are modelled
as integers and metadata entries as string pairs. -/
structure AnnotationRecord where
  id : String
  pageNumber : ℤ
  highlights : List HighlightRect
  underlines : Option (List HighlightRect)
  color : String
  borderColor : String
  comment : Option String
  createdAt : ℤ
  updatedAt : ℤ
  metadata : Option (List (String × String))
  isCommentPending : Option Bool
deriving DecidableEq, Repr

/-- Partial record: a present field overrides the stored one on spread. -/
structure AnnotationUpdate where
  id : Option String := none
  pageNumber : Option ℤ := none
  highlights : Option (List HighlightRect) := none
  underlines : Option (Option (List HighlightRect)) := none
  color : Option String := none
  borderColor : Option String := none
  comment : Option (Option String) := none
  createdAt : Option ℤ := none
  updatedAt : Option ℤ := none
  metadata : Option (Option (List (String × String))) := none
  isCommentPending : Option (Option Bool) := none
deriving DecidableEq, Repr

/-- The spread of the source: fields present in the update replace the
stored fields. -/
def applyUpdates (record : AnnotationRecord) (updates : AnnotationUpdate) : AnnotationRecord :=
  { id := updates.id.getD record.id,
    pageNumber := updates.pageNumber.getD record.pageNumber,
    highlights := updates.highlights.getD record.highlights,
    underlines := updates.underlines.getD record.underlines,
    color := updates.color.getD record.color,
    borderColor := updates.borderColor.getD record.borderColor,
    comment := updates.comment.getD record.comment,
    createdAt := updates.createdAt.getD record.createdAt,
    updatedAt := updates.updatedAt.getD record.updatedAt,
    metadata := updates.metadata.getD record.metadata,
    isCommentPending := updates.isCommentPending.getD record.isCommentPending }

/-- addAnnotation of the source: append to the list. -/
def addAnnotationRecord (record : AnnotationRecord) (annotations : List AnnotationRecord) : List AnnotationRecord :=
  annotations ++ [record]

/-- updateAnnotation of the source: map over the list, spreading the updates
onto every record whose id matches. -/
def updateAnnotationRecord (id : String) (updates : AnnotationUpdate) (annotations : List AnnotationRecord) : List AnnotationRecord :=
  annotations.map (fun record =>
    if record.id = id then applyUpdates record updates else record)

/-- deleteAnnotation of the source: keep the annotations whose id differs. -/
def deleteAnnotationRecord (id : String) (annotations : List AnnotationRecord) : List AnnotationRecord :=
  annotations.filter (fun record => record.id ≠ id)

/-! ## Comment-pending cleanup (src/unnamed/part_000) -/

/-- JS falsiness of an optional string: undefined and the empty string are
falsy. -/
def jsFalsyString (s : Option String) : Bool :=
  match s with
  | none => true
  | some str => str = ""

/-- JS truthiness of an optional boolean: only an explicit true is truthy. -/
def jsTruthyBool (b : Option Bool) : Bool :=
  match b with
  | none => false
  | some v => v

/-- Store effect of handleCancelComment: when a composer is open for an
record that is found in the store and has no comment attached, that
record is deleted; otherwise the store is unchanged.  The local
composer-state resets of the source have no store effect and are not
modelled. -/
def handleCancelComment (editingAnnotationId : Option String) (annotations : List AnnotationRecord) : List AnnotationRecord :=
  match editingAnnotationId with
  | none => annotations
  | some id =>
      match annotations.find? (fun a => a.id = id) with
      | some record =>
          if jsFalsyString record.comment then deleteAnnotationRecord id annotations
          else annotations
      | none => annotations

/-- Store effect of handleAnnotationTooltipClose: a comment-pending
record without a comment is deleted when its tooltip closes. -/
def handleAnnotationTooltipClose (record : AnnotationRecord) (annotations : List AnnotationRecord) : List AnnotationRecord :=
  if jsTruthyBool record.isCommentPending && jsFalsyString record.comment then
    deleteAnnotationRecord record.id annotations
  else annotations

/-! ## Sample values used by the witness theorems -/

/-- Distinguished error name of the cancelled-operation signal. -/
def cancelledErrorName : String := "RenderingCancelledException"

/-- Some other render failure. -/
def otherErrorName : String := "UnknownError"

/-- A comment-pending record that never received a comment. -/
def pendingRecord : AnnotationRecord :=
  { id := "a", pageNumber := 1, highlights := [⟨1, 0, 0, 1, 1⟩], underlines := none,
    color := "yellow", borderColor := "orange", comment := none,
    createdAt := 0, updatedAt := 0, metadata := none, isCommentPending := some true }

/-- A record that already carries a comment. -/
def otherRecord : AnnotationRecord :=
  { id := "b", pageNumber := 2, highlights := [⟨1, 0, 0, 1, 2⟩], underlines := none,
    color := "blue", borderColor := "blue", comment := some "done",
    createdAt := 0, updatedAt := 0, metadata := none, isCommentPending := none }

/-- The update applied when a comment is saved. -/
def commentUpdate : AnnotationUpdate :=
  { comment := some (some "note"), updatedAt := some 1 }

/-- An id not present in the sample store. -/
def missingId : String := "z"

/-! ## Helper lemmas about the consolidation loops -/

theorem sweepOnce_length_le : ∀ (rest group : List HighlightRect), ((sweepOnce group rest).2).length ≤ rest.length := by
  intro rest
  induction rest with
  | nil => intro group; simp [sweepOnce]
  | cons c rest ih =>
      intro group
      by_cases h : (group.any fun groupRect => doRectsOverlap groupRect c) = true
      · simp only [sweepOnce, if_pos h]
        exact le_trans (ih (group ++ [c])) (Nat.le_succ _)
      · simp only [sweepOnce, if_neg h, List.length_cons]
        exact Nat.succ_le_succ (ih group)

theorem sweepOnce_eq_of_length (rest : List HighlightRect) : ∀ group, ((sweepOnce group rest).2).length = rest.length → sweepOnce group rest = (group, rest) := by
  induction rest with
  | nil => intro group _; simp [sweepOnce]
  | cons c rest ih =>
      intro group hlen
      by_cases h : (group.any fun groupRect => doRectsOverlap groupRect c) = true
      · exfalso
        rw [sweepOnce, if_pos h] at hlen
        simp only [List.length_cons] at hlen
        have := sweepOnce_length_le rest (group ++ [c])
        omega
      · rw [sweepOnce, if_neg h] at hlen ⊢
        simp only [List.length_cons] at hlen
        have h2 := ih group (by omega)
        simp [h2]

theorem closeGroupFuel_length_le : ∀ (fuel : ℕ) (group rest : List HighlightRect), ((closeGroupFuel fuel group rest).2).length ≤ rest.length := by
  intro fuel
  induction fuel with
  | zero => intro group rest; simp [closeGroupFuel]
  | succ fuel ih =>
      intro group rest
      by_cases h : ((sweepOnce group rest).2).length = rest.length
      · rw [closeGroupFuel, if_pos h]
        exact le_of_eq h
      · rw [closeGroupFuel, if_neg h]
        exact le_trans (ih _ _) (sweepOnce_length_le rest group)

theorem closeGroup_fixpoint : ∀ (fuel : ℕ) (group rest : List HighlightRect), rest.length < fuel → sweepOnce ((closeGroupFuel fuel group rest).1) ((closeGroupFuel fuel group rest).2) = ((closeGroupFuel fuel group rest).1, (closeGroupFuel fuel group rest).2) := by
  intro fuel
  induction fuel with
  | zero => intro group rest h; omega
  | succ fuel ih =>
      intro group rest hlt
      by_cases h : ((sweepOnce group rest).2).length = rest.length
      · have he := sweepOnce_eq_of_length rest group h
        rw [closeGroupFuel, if_pos h, he]
        exact he
      · rw [closeGroupFuel, if_neg h]
        have hle := sweepOnce_length_le rest group
        exact ih _ _ (by omega)

theorem sweepOnce_mem : ∀ (rest group : List HighlightRect) (r : HighlightRect), (r ∈ group ∨ r ∈ rest) → r ∈ (sweepOnce group rest).1 ∨ r ∈ (sweepOnce group rest).2 := by
  intro rest
  induction rest with
  | nil => intro group r hr; simpa [sweepOnce] using hr
  | cons c rest ih =>
      intro group r hr
      by_cases h : (group.any fun groupRect => doRectsOverlap groupRect c) = true
      · rw [sweepOnce, if_pos h]
        apply ih
        rcases hr with hg | hc
        · exact Or.inl (List.mem_append_left _ hg)
        · rcases List.mem_cons.mp hc with hc | hc
          · exact Or.inl (List.mem_append_right _ (by simp [hc]))
          · exact Or.inr hc
      · rw [sweepOnce, if_neg h]
        rcases hr with hg | hc
        · rcases ih group r (Or.inl hg) with h1 | h2
          · exact Or.inl h1
          · exact Or.inr (List.mem_cons_of_mem _ h2)
        · rcases List.mem_cons.mp hc with hc | hc
          · exact Or.inr (by simp [hc])
          · rcases ih group r (Or.inr hc) with h1 | h2
            · exact Or.inl h1
            · exact Or.inr (List.mem_cons_of_mem _ h2)

theorem closeGroupFuel_mem : ∀ (fuel : ℕ) (group rest : List HighlightRect) (r : HighlightRect), (r ∈ group ∨ r ∈ rest) → r ∈ (closeGroupFuel fuel group rest).1 ∨ r ∈ (closeGroupFuel fuel group rest).2 := by
  intro fuel
  induction fuel with
  | zero => intro group rest r hr; simpa [closeGroupFuel] using hr
  | succ fuel ih =>
      intro group rest r hr
      by_cases h : ((sweepOnce group rest).2).length = rest.length
      · rw [closeGroupFuel, if_pos h]
        exact sweepOnce_mem rest group r hr
      · rw [closeGroupFuel, if_neg h]
        exact ih _ _ r (sweepOnce_mem rest group r hr)

theorem sweepOnce_head : ∀ (rest : List HighlightRect) (c : HighlightRect) (g : List HighlightRect), ∃ tl, (sweepOnce (c :: g) rest).1 = c :: tl := by
  intro rest
  induction rest with
  | nil => intro c g; exact ⟨g, by simp [sweepOnce]⟩
  | cons cand rest ih =>
      intro c g
      by_cases h : (((c :: g).any fun groupRect => doRectsOverlap groupRect cand)) = true
      · rw [sweepOnce, if_pos h]
        simpa using ih c (g ++ [cand])
      · rw [sweepOnce, if_neg h]
        simpa using ih c g

theorem closeGroupFuel_head : ∀ (fuel : ℕ) (c : HighlightRect) (g rest : List HighlightRect), ∃ tl, (closeGroupFuel fuel (c :: g) rest).1 = c :: tl := by
  intro fuel
  induction fuel with
  | zero => intro c g rest; exact ⟨g, rfl⟩
  | succ fuel ih =>
      intro c g rest
      by_cases h : ((sweepOnce (c :: g) rest).2).length = rest.length
      · rw [closeGroupFuel, if_pos h]
        exact sweepOnce_head rest c g
      · rw [closeGroupFuel, if_neg h]
        obtain ⟨tl, htl⟩ := sweepOnce_head rest c g
        rw [htl]
        exact ih c tl _

theorem containsRect_refl (r : HighlightRect) : containsRect r r :=
  ⟨le_refl _, le_refl _, le_refl _, le_refl _⟩

theorem mergeBBoxFold_spec : ∀ (l : List HighlightRect) (acc : ℚ × ℚ × ℚ × ℚ),
    (let res := l.foldl (fun (acc : ℚ × ℚ × ℚ × ℚ) rect =>
        (min acc.1 rect.left, min acc.2.1 rect.top,
         max acc.2.2.1 (rect.left + rect.width), max acc.2.2.2 (rect.top + rect.height))) acc
     (res.1 ≤ acc.1 ∧ res.2.1 ≤ acc.2.1 ∧ acc.2.2.1 ≤ res.2.2.1 ∧ acc.2.2.2 ≤ res.2.2.2) ∧
     ∀ r ∈ l, res.1 ≤ r.left ∧ res.2.1 ≤ r.top ∧ r.left + r.width ≤ res.2.2.1 ∧ r.top + r.height ≤ res.2.2.2) := by
  intro l
  induction l with
  | nil => intro acc; exact ⟨⟨le_refl _, le_refl _, le_refl _, le_refl _⟩, by simp⟩
  | cons x l ih =>
      intro acc
      obtain ⟨⟨ha1, ha2, ha3, ha4⟩, hmem⟩ := ih
        (min acc.1 x.left, min acc.2.1 x.top,
         max acc.2.2.1 (x.left + x.width), max acc.2.2.2 (x.top + x.height))
      refine ⟨⟨le_trans ha1 (min_le_left _ _), le_trans ha2 (min_le_left _ _),
        le_trans (le_max_left _ _) ha3, le_trans (le_max_left _ _) ha4⟩, ?_⟩
      intro r hr
      rcases List.mem_cons.mp hr with hr | hr
      · subst hr
        exact ⟨le_trans ha1 (min_le_right _ _), le_trans ha2 (min_le_right _ _),
          le_trans (le_max_right _ _) ha3, le_trans (le_max_right _ _) ha4⟩
      · exact hmem r hr

theorem mergeRectGroup_contains : ∀ (l : List HighlightRect), l ≠ [] → ∃ m, mergeRectGroup l = some m ∧ ∀ r ∈ l, containsRect m r := by
  intro l hne
  match l with
  | [] => exact absurd rfl hne
  | [rect] =>
      refine ⟨rect, rfl, ?_⟩
      intro r hr
      rcases List.mem_cons.mp hr with hr | hr
      · subst hr; exact containsRect_refl r
      · simp at hr
  | firstRect :: second :: rest =>
      obtain ⟨_, hmem⟩ := mergeBBoxFold_spec (firstRect :: second :: rest)
        (firstRect.left, firstRect.top, firstRect.left + firstRect.width,
         firstRect.top + firstRect.height)
      refine ⟨_, rfl, ?_⟩
      intro r hr
      obtain ⟨h1, h2, h3, h4⟩ := hmem r hr
      exact ⟨h1, h2, by simpa using h3, by simpa using h4⟩

theorem consolidateRectsGo_length_le : ∀ (fuel : ℕ) (l : List HighlightRect), (consolidateRectsGo fuel l).length ≤ l.length := by
  intro fuel
  induction fuel with
  | zero => intro l; simp [consolidateRectsGo]
  | succ fuel ih =>
      intro l
      match l with
      | [] => simp [consolidateRectsGo]
      | currentRect :: rest =>
          rw [consolidateRectsGo]
          have hk : ((closeGroup [currentRect] rest).2).length ≤ rest.length :=
            closeGroupFuel_length_le _ _ _
          cases hmg : mergeRectGroup (closeGroup [currentRect] rest).1 with
          | some merged =>
              simp only [hmg, List.length_cons]
              exact Nat.succ_le_succ (le_trans (ih _) hk)
          | none =>
              simp only [hmg]
              exact le_trans (le_trans (ih _) hk) (Nat.le_succ _)

theorem hlLoop_length_le : ∀ (l : List HighlightRect) (current : HighlightRect), (hlLoop current l).length ≤ l.length + 1 := by
  intro l
  induction l with
  | nil => intro current; simp [hlLoop]
  | cons next rest ih =>
      intro current
      by_cases h : (hlConnected current next) = true
      · rw [hlLoop, if_pos h]
        exact le_trans (ih _) (by simp [List.length_cons])
      · rw [hlLoop, if_neg h]
        simpa [List.length_cons] using ih next

theorem hlLoop_pages : ∀ (l : List HighlightRect) (current r : HighlightRect), r ∈ hlLoop current l → r.pageNumber = current.pageNumber ∨ r.pageNumber ∈ l.map HighlightRect.pageNumber := by
  intro l
  induction l with
  | nil => intro current r hr; simp [hlLoop] at hr; simp [hr]
  | cons next rest ih =>
      intro current r hr
      by_cases h : (hlConnected current next) = true
      · rw [hlLoop, if_pos h] at hr
        rcases ih _ r hr with h1 | h2
        · exact Or.inl (by simpa [hlMergeRects] using h1)
        · exact Or.inr (List.mem_cons_of_mem _ h2)
      · rw [hlLoop, if_neg h] at hr
        rcases List.mem_cons.mp hr with h1 | h1
        · exact Or.inl (by simp [h1])
        · rcases ih next r h1 with h2 | h2
          · exact Or.inr (by simp [h2])
          · exact Or.inr (List.mem_cons_of_mem _ h2)

/-- C1 counterexample: on the three rects below, one pass of consolidateRects
merges the first two into the bounding box 0..10 times 0..10, which the third
rect (at 0..2 times 5..7) overlaps; a second pass therefore merges further,
so consolidation is not idempotent and the two outputs differ as sets. -/
theorem consolidateRects_not_idempotent :
    consolidateRects [⟨2, 0, 0, 10, 1⟩, ⟨10, 8, 0, 2, 1⟩, ⟨2, 0, 5, 2, 1⟩] =
      [⟨10, 0, 0, 10, 1⟩, ⟨2, 0, 5, 2, 1⟩] ∧
    consolidateRects (consolidateRects [⟨2, 0, 0, 10, 1⟩, ⟨10, 8, 0, 2, 1⟩, ⟨2, 0, 5, 2, 1⟩]) =
      [⟨10, 0, 0, 10, 1⟩] ∧
    (⟨2, 0, 5, 2, 1⟩ : HighlightRect) ∈ consolidateRects [⟨2, 0, 0, 10, 1⟩, ⟨10, 8, 0, 2, 1⟩, ⟨2, 0, 5, 2, 1⟩] ∧
    (⟨2, 0, 5, 2, 1⟩ : HighlightRect) ∉ consolidateRects (consolidateRects [⟨2, 0, 0, 10, 1⟩, ⟨10, 8, 0, 2, 1⟩, ⟨2, 0, 5, 2, 1⟩]) := by
  have h1 : consolidateRects [(⟨2, 0, 0, 10, 1⟩ : HighlightRect), ⟨10, 8, 0, 2, 1⟩, ⟨2, 0, 5, 2, 1⟩] =
      [⟨10, 0, 0, 10, 1⟩, ⟨2, 0, 5, 2, 1⟩] := by
    norm_num [consolidateRects, consolidateRectsGo, closeGroup, closeGroupFuel, sweepOnce,
      mergeRectGroup, doRectsOverlap, shouldMergeRects, MERGE_THRESHOLD]
  have h2 : consolidateRects [(⟨10, 0, 0, 10, 1⟩ : HighlightRect), ⟨2, 0, 5, 2, 1⟩] =
      [⟨10, 0, 0, 10, 1⟩] := by
    norm_num [consolidateRects, consolidateRectsGo, closeGroup, closeGroupFuel, sweepOnce,
      mergeRectGroup, doRectsOverlap, shouldMergeRects, MERGE_THRESHOLD]
  rw [h1, h2]
  refine ⟨rfl, rfl, by simp, ?_⟩
  simp only [List.mem_singleton]
  intro h
  have := congrArg HighlightRect.height h
  norm_num at this

/-- C1 (amended): consolidation is not idempotent, but each pass is
size-nonincreasing for both consolidateRects and consolidateHighlightRects,
and a pass is the identity on inputs with at most one rectangle. -/
theorem consolidate_length_le : ∀ rects : List HighlightRect,
    (consolidateRects rects).length ≤ rects.length ∧
    (consolidateHighlightRects rects).length ≤ rects.length := by
  intro rects
  constructor
  · rw [consolidateRects]
    by_cases h : rects.length ≤ 1
    · rw [if_pos h]
    · rw [if_neg h]
      exact consolidateRectsGo_length_le _ _
  · rw [consolidateHighlightRects]
    by_cases h : rects.length ≤ 1
    · rw [if_pos h]
    · rw [if_neg h]
      cases hs : rects.mergeSort hlSortLE with
      | nil => exact le_refl _
      | cons current rest =>
          have hlen : (current :: rest).length = rects.length := by
            rw [← hs]; exact List.length_mergeSort rects
          calc (hlLoop current rest).length ≤ rest.length + 1 := hlLoop_length_le rest current
            _ = (current :: rest).length := by simp
            _ = rects.length := hlen

/-- C7: the two-rect scenario with a gap of 2 consolidates to the single
rect of width 82, while the variant with a gap of 10 stays two rects. -/
theorem merge_threshold_scenario :
    consolidateHighlightRects [⟨10, 0, 0, 50, 1⟩, ⟨10, 52, 0, 30, 1⟩] = [⟨10, 0, 0, 82, 1⟩] ∧
    consolidateHighlightRects [⟨10, 0, 0, 50, 1⟩, ⟨10, 60, 0, 30, 1⟩] =
      [⟨10, 0, 0, 50, 1⟩, ⟨10, 60, 0, 30, 1⟩] := by
  constructor
  · norm_num [consolidateHighlightRects, List.mergeSort, List.merge, hlSortLE, hlCompare,
      hlLoop, hlConnected, hlMergeRects, MERGE_THRESHOLD]
  · norm_num [consolidateHighlightRects, List.mergeSort, List.merge, hlSortLE, hlCompare,
      hlLoop, hlConnected, hlMergeRects, MERGE_THRESHOLD]

/-- C6: every input rect is geometrically contained in some rect of the
consolidateRects output. -/
theorem consolidateRects_containment : ∀ (rects : List HighlightRect) (r : HighlightRect),
    r ∈ rects → ∃ R ∈ consolidateRects rects, containsRect R r := by
  have go : ∀ (fuel : ℕ) (l : List HighlightRect), l.length ≤ fuel → ∀ r ∈ l,
      ∃ R ∈ consolidateRectsGo fuel l, containsRect R r := by
    intro fuel
    induction fuel with
    | zero =>
        intro l hlen r hr
        rw [List.length_eq_zero.mp (Nat.le_zero.mp hlen)] at hr
        simp at hr
    | succ fuel ih =>
        intro l hlen r hr
        match l with
        | [] => simp at hr
        | currentRect :: rest =>
            obtain ⟨tl, htl⟩ := closeGroupFuel_head (rest.length + 1) currentRect [] rest
            have hne : (closeGroup [currentRect] rest).1 ≠ [] := by
              rw [closeGroup, htl]; simp
            obtain ⟨m, hm, hcont⟩ := mergeRectGroup_contains _ hne
            rw [consolidateRectsGo, hm]
            have hsplit : r ∈ (closeGroup [currentRect] rest).1 ∨ r ∈ (closeGroup [currentRect] rest).2 := by
              apply closeGroupFuel_mem
              rcases List.mem_cons.mp hr with h1 | h1
              · exact Or.inl (by simp [h1])
              · exact Or.inr h1
            rcases hsplit with hg | hk
            · exact ⟨m, by simp, hcont r hg⟩
            · have hklen : ((closeGroup [currentRect] rest).2).length ≤ fuel := by
                have h2 := closeGroupFuel_length_le (rest.length + 1) [currentRect] rest
                rw [closeGroup]
                simp only [List.length_cons] at hlen
                omega
              obtain ⟨R, hR, hRc⟩ := ih _ hklen r hk
              exact ⟨R, List.mem_cons_of_mem _ hR, hRc⟩
  intro rects r hr
  rw [consolidateRects]
  by_cases h : rects.length ≤ 1
  · rw [if_pos h]
    exact ⟨r, hr, containsRect_refl r⟩
  · rw [if_neg h]
    exact go rects.length rects (le_refl _) r hr

/-- Witness for C6 at a concrete one-element input. -/
theorem consolidateRects_containment_witness :
    (⟨3, 1, 2, 4, 1⟩ : HighlightRect) ∈ [(⟨3, 1, 2, 4, 1⟩ : HighlightRect)] ∧
    ∃ R ∈ consolidateRects [(⟨3, 1, 2, 4, 1⟩ : HighlightRect)], containsRect R ⟨3, 1, 2, 4, 1⟩ :=
  ⟨by simp, consolidateRects_containment [⟨3, 1, 2, 4, 1⟩] ⟨3, 1, 2, 4, 1⟩ (by simp)⟩

/-- C2 counterexample: doRectsOverlap never inspects pageNumber, so
consolidateRects merges a page-1 rect and a geometrically overlapping
page-2 rect into one output rect that contains both, refuting the claim for
consolidateRects on inputs not already partitioned by page. -/
theorem consolidateRects_cross_page_merge :
    consolidateRects [⟨10, 0, 0, 10, 1⟩, ⟨6, 2, 2, 6, 2⟩] = [⟨10, 0, 0, 10, 1⟩] ∧
    containsRect ⟨10, 0, 0, 10, 1⟩ ⟨10, 0, 0, 10, 1⟩ ∧
    containsRect ⟨10, 0, 0, 10, 1⟩ ⟨6, 2, 2, 6, 2⟩ ∧
    (⟨10, 0, 0, 10, 1⟩ : HighlightRect).pageNumber ≠ (⟨6, 2, 2, 6, 2⟩ : HighlightRect).pageNumber := by
  refine ⟨?_, containsRect_refl _, ?_, by decide⟩
  · norm_num [consolidateRects, consolidateRectsGo, closeGroup, closeGroupFuel, sweepOnce,
      mergeRectGroup, doRectsOverlap, shouldMergeRects, MERGE_THRESHOLD]
  · refine ⟨by norm_num, by norm_num, by norm_num, by norm_num⟩

/-- C2 (amended): the single-pass merge of consolidateHighlightRects never
joins rects of different pages, since its merge guard requires equal page
numbers, and every page number appearing in its output already appears in
the input; consolidateRects checks only geometry and can merge across
pages, but is only ever applied to inputs already partitioned by page. -/
theorem consolidateHighlightRects_same_page_merge :
    (∀ current next : HighlightRect, current.pageNumber ≠ next.pageNumber →
      hlConnected current next = false) ∧
    (∀ (rects : List HighlightRect) (r : HighlightRect), r ∈ consolidateHighlightRects rects →
      r.pageNumber ∈ rects.map HighlightRect.pageNumber) := by
  constructor
  · intro current next hne
    simp only [hlConnected, decide_eq_false_iff_not]
    intro hcontra
    exact hne hcontra.1.1
  · intro rects r hr
    rw [consolidateHighlightRects] at hr
    by_cases h : rects.length ≤ 1
    · rw [if_pos h] at hr
      exact List.mem_map_of_mem _ hr
    · rw [if_neg h] at hr
      cases hs : rects.mergeSort hlSortLE with
      | nil => rw [hs] at hr; exact List.mem_map_of_mem _ hr
      | cons current rest =>
          rw [hs] at hr
          have hperm : (rects.mergeSort hlSortLE).Perm rects := List.mergeSort_perm rects hlSortLE
          rw [hs] at hperm
          have hmem : r.pageNumber ∈ (current :: rest).map HighlightRect.pageNumber := by
            rcases hlLoop_pages rest current r hr with h1 | h1
            · simp [h1]
            · exact List.mem_cons_of_mem _ h1
          exact (hperm.map HighlightRect.pageNumber).mem_iff.mp hmem

/-- Witness for C2 (amended) at concrete rects on pages 1 and 2. -/
theorem consolidateHighlightRects_same_page_merge_witness :
    ((⟨1, 0, 0, 1, 1⟩ : HighlightRect).pageNumber ≠ (⟨1, 0, 0, 1, 2⟩ : HighlightRect).pageNumber) ∧
    hlConnected ⟨1, 0, 0, 1, 1⟩ ⟨1, 0, 0, 1, 2⟩ = false ∧
    (⟨1, 0, 0, 1, 1⟩ : HighlightRect) ∈ consolidateHighlightRects [⟨1, 0, 0, 1, 1⟩] ∧
    (⟨1, 0, 0, 1, 1⟩ : HighlightRect).pageNumber ∈
      [(⟨1, 0, 0, 1, 1⟩ : HighlightRect)].map HighlightRect.pageNumber :=
  ⟨by decide,
   consolidateHighlightRects_same_page_merge.1 ⟨1, 0, 0, 1, 1⟩ ⟨1, 0, 0, 1, 2⟩ (by decide),
   by simp [consolidateHighlightRects],
   consolidateHighlightRects_same_page_merge.2 [⟨1, 0, 0, 1, 1⟩] ⟨1, 0, 0, 1, 1⟩
     (by simp [consolidateHighlightRects])⟩

/-- C3 counterexample: at page size 1000 by 1000, dpr 1 and zoom 6, the base
canvas of useCanvasLayer holds 36,000,000 pixels, exceeding the area limit
the claim asserts is enforced; the source removed the clamping from the
base layer. -/
theorem baseCanvas_area_limit_violated :
    ¬ (baseCanvasWidth 1000 1 6 * baseCanvasHeight 1000 1 6 ≤ (MAX_CANVAS_PIXELS : ℤ)) := by
  norm_num [baseCanvasWidth, baseCanvasHeight, MAX_CANVAS_PIXELS]

/-- C3 (amended): the base raster surface is sized to exactly the floor of
unscaled page size times devicePixelRatio times zoom, with no clamping
applied to it; the area and dimension limits exist only in
clampScaleForPage of the detail layer. -/
theorem baseCanvas_size_unclamped : ∀ w h dpr zoom : ℚ,
    ((baseCanvasWidth w dpr zoom : ℚ) ≤ w * (dpr * zoom) ∧
      w * (dpr * zoom) - 1 < (baseCanvasWidth w dpr zoom : ℚ)) ∧
    ((baseCanvasHeight h dpr zoom : ℚ) ≤ h * (dpr * zoom) ∧
      h * (dpr * zoom) - 1 < (baseCanvasHeight h dpr zoom : ℚ)) := by
  intro w h dpr zoom
  exact ⟨⟨Int.floor_le _, Int.sub_one_lt_floor _⟩, ⟨Int.floor_le _, Int.sub_one_lt_floor _⟩⟩

/-- C4: the clamped scale never exceeds the request and always satisfies the
area and dimension budgets. -/
theorem clampScaleForPage_correct : ∀ s w h : ℝ, 0 < s → 0 ≤ w → 0 ≤ h →
    clampScaleForPage s w h ≤ s ∧
    (clampScaleForPage s w h * w) * (clampScaleForPage s w h * h) ≤ (MAX_CANVAS_PIXELS : ℝ) ∧
    clampScaleForPage s w h * w ≤ (MAX_CANVAS_DIMENSION : ℝ) ∧
    clampScaleForPage s w h * h ≤ (MAX_CANVAS_DIMENSION : ℝ) := by
  intro s w h hs hw hh
  have hA : (0 : ℝ) ≤ (MAX_CANVAS_PIXELS : ℝ) := by positivity
  have hD : (0 : ℝ) ≤ (MAX_CANVAS_DIMENSION : ℝ) := by positivity
  have hm : (0 : ℝ) < max (w * h) 1 := lt_of_lt_of_le one_pos (le_max_right _ _)
  have hmw : (0 : ℝ) < max w 1 := lt_of_lt_of_le one_pos (le_max_right _ _)
  have hmh : (0 : ℝ) < max h 1 := lt_of_lt_of_le one_pos (le_max_right _ _)
  have harea : (0 : ℝ) ≤ Real.sqrt ((MAX_CANVAS_PIXELS : ℝ) / max (w * h) 1) := Real.sqrt_nonneg _
  have hwl : (0 : ℝ) ≤ (MAX_CANVAS_DIMENSION : ℝ) / max w 1 := div_nonneg hD hmw.le
  have hhl : (0 : ℝ) ≤ (MAX_CANVAS_DIMENSION : ℝ) / max h 1 := div_nonneg hD hmh.le
  have hdef : clampScaleForPage s w h =
      max (min (min (min s (Real.sqrt ((MAX_CANVAS_PIXELS : ℝ) / max (w * h) 1)))
        ((MAX_CANVAS_DIMENSION : ℝ) / max w 1)) ((MAX_CANVAS_DIMENSION : ℝ) / max h 1)) 0 := by
    rw [clampScaleForPage, if_neg hs.ne']
  set q := min (min (min s (Real.sqrt ((MAX_CANVAS_PIXELS : ℝ) / max (w * h) 1)))
    ((MAX_CANVAS_DIMENSION : ℝ) / max w 1)) ((MAX_CANVAS_DIMENSION : ℝ) / max h 1) with hq
  have hc0 : 0 ≤ clampScaleForPage s w h := by rw [hdef]; exact le_max_right _ _
  have hcs : clampScaleForPage s w h ≤ s := by
    rw [hdef]
    exact max_le (le_trans (min_le_left _ _) (le_trans (min_le_left _ _) (min_le_left _ _))) hs.le
  have hcarea : clampScaleForPage s w h ≤ Real.sqrt ((MAX_CANVAS_PIXELS : ℝ) / max (w * h) 1) := by
    rw [hdef]
    exact max_le (le_trans (min_le_left _ _) (le_trans (min_le_left _ _) (min_le_right _ _))) harea
  have hcw : clampScaleForPage s w h ≤ (MAX_CANVAS_DIMENSION : ℝ) / max w 1 := by
    rw [hdef]
    exact max_le (le_trans (min_le_left _ _) (min_le_right _ _)) hwl
  have hch : clampScaleForPage s w h ≤ (MAX_CANVAS_DIMENSION : ℝ) / max h 1 := by
    rw [hdef]
    exact max_le (min_le_right _ _) hhl
  refine ⟨hcs, ?_, ?_, ?_⟩
  · have hsq : clampScaleForPage s w h * clampScaleForPage s w h ≤
        (MAX_CANVAS_PIXELS : ℝ) / max (w * h) 1 := by
      calc clampScaleForPage s w h * clampScaleForPage s w h
          ≤ Real.sqrt ((MAX_CANVAS_PIXELS : ℝ) / max (w * h) 1) *
            Real.sqrt ((MAX_CANVAS_PIXELS : ℝ) / max (w * h) 1) :=
            mul_le_mul hcarea hcarea hc0 harea
        _ = (MAX_CANVAS_PIXELS : ℝ) / max (w * h) 1 :=
            Real.mul_self_sqrt (div_nonneg hA hm.le)
    calc (clampScaleForPage s w h * w) * (clampScaleForPage s w h * h)
        = (clampScaleForPage s w h * clampScaleForPage s w h) * (w * h) := by ring
      _ ≤ ((MAX_CANVAS_PIXELS : ℝ) / max (w * h) 1) * (w * h) :=
          mul_le_mul_of_nonneg_right hsq (mul_nonneg hw hh)
      _ ≤ ((MAX_CANVAS_PIXELS : ℝ) / max (w * h) 1) * max (w * h) 1 :=
          mul_le_mul_of_nonneg_left (le_max_left _ _) (div_nonneg hA hm.le)
      _ = (MAX_CANVAS_PIXELS : ℝ) := div_mul_cancel₀ _ hm.ne'
  · calc clampScaleForPage s w h * w ≤ ((MAX_CANVAS_DIMENSION : ℝ) / max w 1) * w :=
        mul_le_mul_of_nonneg_right hcw hw
      _ ≤ ((MAX_CANVAS_DIMENSION : ℝ) / max w 1) * max w 1 :=
        mul_le_mul_of_nonneg_left (le_max_left _ _) hwl
      _ = (MAX_CANVAS_DIMENSION : ℝ) := div_mul_cancel₀ _ hmw.ne'
  · calc clampScaleForPage s w h * h ≤ ((MAX_CANVAS_DIMENSION : ℝ) / max h 1) * h :=
        mul_le_mul_of_nonneg_right hch hh
      _ ≤ ((MAX_CANVAS_DIMENSION : ℝ) / max h 1) * max h 1 :=
        mul_le_mul_of_nonneg_left (le_max_left _ _) hhl
      _ = (MAX_CANVAS_DIMENSION : ℝ) := div_mul_cancel₀ _ hmh.ne'

/-- Witness for C4 at scale 2 and page 100 by 50. -/
theorem clampScaleForPage_correct_witness :
    ((0 : ℝ) < 2 ∧ (0 : ℝ) ≤ 100 ∧ (0 : ℝ) ≤ 50) ∧
    (clampScaleForPage 2 100 50 ≤ 2 ∧
      (clampScaleForPage 2 100 50 * 100) * (clampScaleForPage 2 100 50 * 50) ≤ (MAX_CANVAS_PIXELS : ℝ) ∧
      clampScaleForPage 2 100 50 * 100 ≤ (MAX_CANVAS_DIMENSION : ℝ) ∧
      clampScaleForPage 2 100 50 * 50 ≤ (MAX_CANVAS_DIMENSION : ℝ)) :=
  ⟨⟨by norm_num, by norm_num, by norm_num⟩,
   clampScaleForPage_correct 2 100 50 (by norm_num) (by norm_num) (by norm_num)⟩

/-- C5: issuing a render while one is pending cancels the pending one and
installs the new one; settling a cancelled operation is a no-op on the
surface; a commit can only come from the pending, non-cancelled operation;
along any event history the pending operation is the most recently issued
and is not cancelled; and the error handler swallows exactly the
cancelled-operation signal and propagates every other failure. -/
theorem render_cancellation_exclusive :
    (∀ (s : SurfaceState) (i : ℕ), s.pending = some i →
      i ∈ (issueRender s).cancelled ∧ (issueRender s).pending = some s.nextId) ∧
    (∀ (s : SurfaceState) (i : ℕ), i ∈ s.cancelled → settleRender s i = s) ∧
    (∀ (s : SurfaceState) (i : ℕ), i ∈ (settleRender s i).committed →
      i ∈ s.committed ∨ (s.pending = some i ∧ i ∉ s.cancelled)) ∧
    (∀ (events : List SurfaceEvent) (i : ℕ), (runSurface events).pending = some i →
      i ∉ (runSurface events).cancelled ∧ i + 1 = (runSurface events).nextId) ∧
    (∀ n : String, n = cancelledErrorName → handleRenderError n = Except.ok ()) ∧
    (∀ n : String, n ≠ cancelledErrorName → handleRenderError n = Except.error n) := by
  refine ⟨?_, ?_, ?_, ?_, ?_, ?_⟩
  · intro s i h
    constructor
    · simp [issueRender, h]
    · rfl
  · intro s i h
    rw [settleRender, if_neg]
    intro hc
    exact hc.2 h
  · intro s i h
    by_cases hc : s.pending = some i ∧ i ∉ s.cancelled
    · exact Or.inr hc
    · rw [settleRender, if_neg hc] at h
      exact Or.inl h
  · have hstep : ∀ (s : SurfaceState) (e : SurfaceEvent),
        ((∀ j ∈ s.cancelled, j < s.nextId) ∧
          (∀ i, s.pending = some i → i ∉ s.cancelled ∧ i + 1 = s.nextId)) →
        ((∀ j ∈ (stepSurface s e).cancelled, j < (stepSurface s e).nextId) ∧
          (∀ i, (stepSurface s e).pending = some i →
            i ∉ (stepSurface s e).cancelled ∧ i + 1 = (stepSurface s e).nextId)) := by
      intro s e ⟨hbound, hpend⟩
      cases e with
      | issue =>
          constructor
          · intro j hj
            simp only [stepSurface, issueRender, List.mem_append] at hj ⊢
            rcases hj with hj | hj
            · exact Nat.lt_succ_of_lt (hbound j hj)
            · cases hp : s.pending with
              | none => rw [hp] at hj; simp at hj
              | some k =>
                  rw [hp] at hj
                  simp only [Option.toList_some, List.mem_singleton] at hj
                  have hk2 := (hpend k hp).2
                  omega
          · intro i hi
            simp only [stepSurface, issueRender, Option.some.injEq] at hi
            subst hi
            constructor
            · simp only [stepSurface, issueRender, List.mem_append]
              intro hc
              rcases hc with hc | hc
              · exact absurd (hbound _ hc) (lt_irrefl _)
              · cases hp : s.pending with
                | none => rw [hp] at hc; simp at hc
                | some k =>
                    rw [hp] at hc
                    simp only [Option.toList_some, List.mem_singleton] at hc
                    have hk2 := (hpend k hp).2
                    omega
            · rfl
      | settle i =>
          by_cases hc : s.pending = some i ∧ i ∉ s.cancelled
          · constructor
            · intro j hj
              simp only [stepSurface, settleRender, if_pos hc] at hj ⊢
              exact hbound j hj
            · intro k hk
              simp only [stepSurface, settleRender, if_pos hc] at hk
              exact Option.noConfusion hk
          · constructor
            · intro j hj
              simp only [stepSurface, settleRender, if_neg hc] at hj ⊢
              exact hbound j hj
            · intro k hk
              simp only [stepSurface, settleRender, if_neg hc] at hk ⊢
              exact hpend k hk
    have hfold : ∀ (events : List SurfaceEvent) (s : SurfaceState),
        ((∀ j ∈ s.cancelled, j < s.nextId) ∧
          (∀ i, s.pending = some i → i ∉ s.cancelled ∧ i + 1 = s.nextId)) →
        ((∀ j ∈ (events.foldl stepSurface s).cancelled, j < (events.foldl stepSurface s).nextId) ∧
          (∀ i, (events.foldl stepSurface s).pending = some i →
            i ∉ (events.foldl stepSurface s).cancelled ∧ i + 1 = (events.foldl stepSurface s).nextId)) := by
      intro events
      induction events with
      | nil => intro s hs; exact hs
      | cons e events ih => intro s hs; exact ih _ (hstep s e hs)
    intro events i hi
    have := (hfold events initialSurface ⟨by simp [initialSurface], by simp [initialSurface]⟩).2
    exact this i hi
  · intro n hn
    rw [hn]
    rfl
  · intro n hn
    rw [handleRenderError, if_neg]
    intro hc
    exact hn hc

/-- Witness for C5: a concrete two-issue history and concrete settlements. -/
theorem render_cancellation_exclusive_witness :
    ((issueRender initialSurface).pending = some 0 ∧
      0 ∈ (issueRender (issueRender initialSurface)).cancelled ∧
      (issueRender (issueRender initialSurface)).pending = some (issueRender initialSurface).nextId) ∧
    ((5 : ℕ) ∈ ({ pending := none, cancelled := [5], committed := [], nextId := 6 } : SurfaceState).cancelled ∧
      settleRender { pending := none, cancelled := [5], committed := [], nextId := 6 } 5 =
        { pending := none, cancelled := [5], committed := [], nextId := 6 }) ∧
    ((3 : ℕ) ∈ (settleRender { pending := some 3, cancelled := [], committed := [], nextId := 4 } 3).committed ∧
      ((3 : ℕ) ∈ ({ pending := some 3, cancelled := [], committed := [], nextId := 4 } : SurfaceState).committed ∨
        (({ pending := some 3, cancelled := [], committed := [], nextId := 4 } : SurfaceState).pending = some 3 ∧
          (3 : ℕ) ∉ ({ pending := some 3, cancelled := [], committed := [], nextId := 4 } : SurfaceState).cancelled))) ∧
    ((runSurface [SurfaceEvent.issue, SurfaceEvent.issue]).pending = some 1 ∧
      1 ∉ (runSurface [SurfaceEvent.issue, SurfaceEvent.issue]).cancelled ∧
      1 + 1 = (runSurface [SurfaceEvent.issue, SurfaceEvent.issue]).nextId) ∧
    (handleRenderError cancelledErrorName = Except.ok ()) ∧
    (otherErrorName ≠ cancelledErrorName ∧
      handleRenderError otherErrorName = Except.error otherErrorName) := by
  have hne : otherErrorName ≠ cancelledErrorName := by simp [otherErrorName, cancelledErrorName]
  refine ⟨⟨rfl, ?_, ?_⟩, ⟨by decide, ?_⟩, ⟨by decide, ?_⟩, ⟨rfl, ?_, ?_⟩, ?_, hne, ?_⟩
  · exact (render_cancellation_exclusive.1 (issueRender initialSurface) 0 rfl).1
  · exact (render_cancellation_exclusive.1 (issueRender initialSurface) 0 rfl).2
  · exact render_cancellation_exclusive.2.1 _ 5 (by decide)
  · exact render_cancellation_exclusive.2.2.1 _ 3 (by decide)
  · exact (render_cancellation_exclusive.2.2.2.1 [SurfaceEvent.issue, SurfaceEvent.issue] 1 rfl).1
  · exact (render_cancellation_exclusive.2.2.2.1 [SurfaceEvent.issue, SurfaceEvent.issue] 1 rfl).2
  · exact render_cancellation_exclusive.2.2.2.2.1 cancelledErrorName rfl
  · exact render_cancellation_exclusive.2.2.2.2.2 otherErrorName hne

theorem foldl_fixed {α β : Type} (f : α → β → α) : ∀ (l : List β) (acc : α),
    (∀ (acc2 : α) (b : β), b ∈ l → f acc2 b = acc2) → l.foldl f acc = acc := by
  intro l
  induction l with
  | nil => intro acc _; rfl
  | cons b l ih =>
      intro acc h
      rw [List.foldl_cons, h acc b (by simp)]
      exact ih acc (fun acc2 b2 hb2 => h acc2 b2 (List.mem_cons_of_mem _ hb2))

/-- C8: extraction of a degenerate selection: an absent or collapsed
selection yields none, and a selection none of whose fragments resolves to
a page text layer yields the empty no-selection record, in both cases
without reaching any throwing code path. -/
theorem degenerate_selection_extraction :
    (∀ zoom : ℚ, getAnnotationDimension zoom none = none) ∧
    (∀ (zoom : ℚ) (sel : DomSelection), sel.isCollapsed = true →
      getAnnotationDimension zoom (some sel) = none) ∧
    (∀ (zoom : ℚ) (sel : DomSelection), sel.isCollapsed = false →
      (∀ frag ∈ sel.fragments, frag.resolvedLayer = none) →
      getAnnotationDimension zoom (some sel) = some ⟨[], [], sel.rangeText.trim, false⟩) := by
  refine ⟨fun zoom => rfl, ?_, ?_⟩
  · intro zoom sel h
    simp [getAnnotationDimension, h]
  · intro zoom sel hcol hres
    have hcollect : collectRects zoom (sel.fragments.filter
        (fun frag => decide (2 < frag.rect.width) && decide (2 < frag.rect.height))) = ([], []) := by
      rw [collectRects]
      apply foldl_fixed
      intro acc frag hf
      have hnone := hres frag (List.mem_of_mem_filter hf)
      simp [hnone]
    simp [getAnnotationDimension, hcol, hcollect, consolidateUnderlines, List.mergeSort]

/-- Witness for C8: a non-collapsed selection with one unresolvable fragment. -/
theorem degenerate_selection_extraction_witness :
    ((⟨false, [⟨⟨0, 0, 10, 10⟩, none⟩], " note "⟩ : DomSelection).isCollapsed = false) ∧
    getAnnotationDimension 1 (some ⟨false, [⟨⟨0, 0, 10, 10⟩, none⟩], " note "⟩) =
      some ⟨[], [], (⟨false, [⟨⟨0, 0, 10, 10⟩, none⟩], " note "⟩ : DomSelection).rangeText.trim, false⟩ :=
  ⟨rfl, degenerate_selection_extraction.2.2 1 ⟨false, [⟨⟨0, 0, 10, 10⟩, none⟩], " note "⟩ rfl
    (by simp)⟩

/-- C9: for an record found in the store, cancelling the composer
deletes it exactly when it carries no comment, and closing the record
tooltip deletes it exactly when it is comment-pending and carries no
comment; an record that received a comment before the cancel is
retained. -/
theorem comment_pending_cleanup :
    (∀ (anns : List AnnotationRecord) (id : String) (a : AnnotationRecord),
      anns.find? (fun x => x.id = id) = some a → jsFalsyString a.comment = true →
      ∀ x ∈ handleCancelComment (some id) anns, x.id ≠ id) ∧
    (∀ (anns : List AnnotationRecord) (id : String) (a : AnnotationRecord),
      anns.find? (fun x => x.id = id) = some a → jsFalsyString a.comment = false →
      handleCancelComment (some id) anns = anns) ∧
    (∀ (anns : List AnnotationRecord) (a : AnnotationRecord),
      jsTruthyBool a.isCommentPending = true → jsFalsyString a.comment = true →
      ∀ x ∈ handleAnnotationTooltipClose a anns, x.id ≠ a.id) ∧
    (∀ (anns : List AnnotationRecord) (a : AnnotationRecord),
      jsFalsyString a.comment = false → handleAnnotationTooltipClose a anns = anns) := by
  refine ⟨?_, ?_, ?_, ?_⟩
  · intro anns id a hfind hfalsy x hx
    simp only [handleCancelComment, hfind, hfalsy, if_true] at hx
    rw [deleteAnnotationRecord] at hx
    have := List.of_mem_filter hx
    simpa using this
  · intro anns id a hfind hfalsy
    simp [handleCancelComment, hfind, hfalsy]
  · intro anns a hpend hfalsy x hx
    simp only [handleAnnotationTooltipClose, hpend, hfalsy, Bool.and_self, if_true] at hx
    rw [deleteAnnotationRecord] at hx
    have := List.of_mem_filter hx
    simpa using this
  · intro anns a hfalsy
    simp [handleAnnotationTooltipClose, hfalsy]

/-- Witness for C9: the pending record without a comment is removed on
cancel, while after updateAnnotation attached a comment the cancel and the
tooltip close both leave the store unchanged. -/
theorem comment_pending_cleanup_witness :
    (otherRecord ∈ handleCancelComment (some pendingRecord.id)
        [pendingRecord, otherRecord] →
      otherRecord.id ≠ pendingRecord.id) ∧
    handleCancelComment (some pendingRecord.id)
        (updateAnnotationRecord pendingRecord.id commentUpdate [pendingRecord]) =
      updateAnnotationRecord pendingRecord.id commentUpdate [pendingRecord] ∧
    (otherRecord ∈ handleAnnotationTooltipClose pendingRecord
        [pendingRecord, otherRecord] →
      otherRecord.id ≠ pendingRecord.id) ∧
    handleAnnotationTooltipClose (applyUpdates pendingRecord commentUpdate)
        [applyUpdates pendingRecord commentUpdate] =
      [applyUpdates pendingRecord commentUpdate] := by
  refine ⟨?_, ?_, ?_, ?_⟩
  · intro hmem
    exact comment_pending_cleanup.1 [pendingRecord, otherRecord]
      pendingRecord.id pendingRecord
      (by simp [pendingRecord, otherRecord]) (by rfl) otherRecord hmem
  · exact comment_pending_cleanup.2.1
      (updateAnnotationRecord pendingRecord.id commentUpdate [pendingRecord])
      pendingRecord.id (applyUpdates pendingRecord commentUpdate)
      (by simp [updateAnnotationRecord, applyUpdates, pendingRecord, commentUpdate])
      (by rfl)
  · intro hmem
    exact comment_pending_cleanup.2.2.1 [pendingRecord, otherRecord]
      pendingRecord (by rfl) (by rfl) otherRecord hmem
  · exact comment_pending_cleanup.2.2.2
      [applyUpdates pendingRecord commentUpdate]
      (applyUpdates pendingRecord commentUpdate) (by rfl)

/-- C10: updateAnnotation preserves length and every record whose id
differs from the target, in place; and when no record carries the given
id both updateAnnotation and deleteAnnotation are exact no-ops. -/
theorem annotation_store_frame :
    (∀ (anns : List AnnotationRecord) (id : String) (u : AnnotationUpdate),
      (updateAnnotationRecord id u anns).length = anns.length) ∧
    (∀ (anns : List AnnotationRecord) (id : String) (u : AnnotationUpdate)
      (i : ℕ) (h1 : i < anns.length) (h2 : i < (updateAnnotationRecord id u anns).length),
      (anns.get ⟨i, h1⟩).id ≠ id →
      (updateAnnotationRecord id u anns).get ⟨i, h2⟩ = anns.get ⟨i, h1⟩) ∧
    (∀ (anns : List AnnotationRecord) (id : String) (u : AnnotationUpdate),
      (∀ a ∈ anns, a.id ≠ id) → updateAnnotationRecord id u anns = anns) ∧
    (∀ (anns : List AnnotationRecord) (id : String),
      (∀ a ∈ anns, a.id ≠ id) → deleteAnnotationRecord id anns = anns) := by
  refine ⟨?_, ?_, ?_, ?_⟩
  · intro anns id u
    simp [updateAnnotationRecord]
  · intro anns id u i h1 h2 hne
    simp only [List.get_eq_getElem] at hne
    simp only [updateAnnotationRecord, List.get_eq_getElem, List.getElem_map]
    rw [if_neg hne]
  · intro anns id u
    intro h
    rw [updateAnnotationRecord]
    induction anns with
    | nil => rfl
    | cons a anns ih =>
        rw [List.map_cons, if_neg (h a (by simp)), ih (fun b hb => h b (List.mem_cons_of_mem _ hb))]
  · intro anns id h
    rw [deleteAnnotationRecord, List.filter_eq_self.mpr]
    intro a ha
    simpa using h a ha

/-- Witness for C10: a store of two annotations and an absent id. -/
theorem annotation_store_frame_witness :
    ((updateAnnotationRecord missingId commentUpdate [pendingRecord, otherRecord]).length =
      ([pendingRecord, otherRecord] : List AnnotationRecord).length) ∧
    (([pendingRecord, otherRecord] : List AnnotationRecord).get
        ⟨0, by simp⟩).id ≠ otherRecord.id ∧
    (updateAnnotationRecord otherRecord.id commentUpdate [pendingRecord, otherRecord]).get
        ⟨0, by simp [updateAnnotationRecord]⟩ =
      ([pendingRecord, otherRecord] : List AnnotationRecord).get ⟨0, by simp⟩ ∧
    updateAnnotationRecord missingId commentUpdate [pendingRecord, otherRecord] =
      [pendingRecord, otherRecord] ∧
    deleteAnnotationRecord missingId [pendingRecord, otherRecord] =
      [pendingRecord, otherRecord] := by
  have hne : (([pendingRecord, otherRecord] : List AnnotationRecord).get
      ⟨0, by simp⟩).id ≠ otherRecord.id := by
    simp [pendingRecord, otherRecord]
  have habsent : ∀ a ∈ ([pendingRecord, otherRecord] : List AnnotationRecord), a.id ≠ missingId := by
    intro a ha
    rcases List.mem_cons.mp ha with h | h
    · subst h; simp [pendingRecord, missingId]
    · simp only [List.mem_singleton] at h
      subst h; simp [otherRecord, missingId]
  refine ⟨?_, hne, ?_, ?_, ?_⟩
  · exact annotation_store_frame.1 [pendingRecord, otherRecord] missingId commentUpdate
  · exact annotation_store_frame.2.1 [pendingRecord, otherRecord] otherRecord.id
      commentUpdate 0 (by simp) (by simp [updateAnnotationRecord]) hne
  · exact annotation_store_frame.2.2.1 [pendingRecord, otherRecord] missingId
      commentUpdate habsent
  · exact annotation_store_frame.2.2.2 [pendingRecord, otherRecord] missingId habsent
